import Mathlib

/-
Verification of the session & update-ordering engine of this repository.

The Session Store (src/util/sessions.ts) persists sessions in a browser
localStorage-like key-value surface.  We embed that surface as a function
from keys to optionally-stored cells.  A stored string is either the
canonical JSON serialization of a JSON value (`StoredCell.json v`) or a
non-empty string that fails `JSON.parse` (`StoredCell.corrupt tag`; the
tag only distinguishes different garbage strings).  The empty string
behaves like an absent key on every code path embedded here (each read
of a raw stored string first passes through `x || fallback` or `if (x)`),
so it is modelled as key absence.
-/

/-- JSON values as produced by `JSON.parse`: null, booleans, numbers,
strings and objects (association lists of fields; arrays do not occur in
the session data handled by the embedded code).  Numbers are integers:
every number written by the embedded code is a data-center id. -/
inductive JVal where
  | jnull
  | jbool (b : Bool)
  | jnum (n : Int)
  | jstr (s : String)
  | jobj (fields : List (String × JVal))

/-- One stored string: either the canonical JSON serialization of a value,
or a (non-empty) string on which `JSON.parse` throws. -/
inductive StoredCell where
  | json (v : JVal)
  | corrupt (tag : Nat)

/-- The persistence surface (`localStorage`): keys to stored strings. -/
def Storage : Type := String → Option StoredCell

def emptyStorage : Storage := fun _ => none

/-- `localStorage.setItem`. -/
def setItem (store : Storage) (key : String) (c : StoredCell) : Storage :=
  fun k => if k = key then some c else store k

/-- `localStorage.removeItem`. -/
def removeItem (store : Storage) (key : String) : Storage :=
  fun k => if k = key then none else store k

/-- Field lookup in a JS object (fields are keyed uniquely). -/
def lookupField : List (String × JVal) → String → Option JVal
  | [], _ => none
  | (k, v) :: rest, key => if k = key then some v else lookupField rest key

/-- Property access `v.key`: `none` is JS `undefined` (also for access on
a non-object primitive, where the embedded code only ever reads absent
properties of interest). -/
def jget : JVal → String → Option JVal
  | .jobj fields, key => lookupField fields key
  | _, _ => none

/-- Set a field of a JS object, replacing an existing entry. -/
def setField : List (String × JVal) → String → JVal → List (String × JVal)
  | [], key, v => [(key, v)]
  | (k, w) :: rest, key, v =>
    if k = key then (key, v) :: rest else (k, w) :: setField rest key v

/-- Drop a field of a JS object (a property set to `undefined` vanishes
under `JSON.stringify`). -/
def removeField : List (String × JVal) → String → List (String × JVal)
  | [], _ => []
  | (k, w) :: rest, key =>
    if k = key then rest else (k, w) :: removeField rest key

/-- JS truthiness of a possibly-undefined value. -/
def truthy : Option JVal → Bool
  | none => false
  | some .jnull => false
  | some (.jbool b) => b
  | some (.jnum n) => n != 0
  | some (.jstr s) => !(s == "")
  | some (.jobj _) => true

/-- `Number(x)` on a possibly-undefined JSON value; `none` encodes `NaN`.
String coercion covers the integer numerals that occur in stored session
data (fractional numerals are outside the model). -/
def jsNumber : Option JVal → Option Int
  | none => none
  | some .jnull => some 0
  | some (.jbool b) => some (if b then 1 else 0)
  | some (.jnum n) => some n
  | some (.jstr s) => if s.trim = "" then some 0 else s.trim.toInt?
  | some (.jobj _) => none

/- Storage keys (from src/config.ts, values as used by the repository;
only their distinctness matters to the embedded code). -/

def SESSION_LEGACY_USER_KEY : String := "user_auth"

/-- `SESSION_ACCOUNT_PREFIX` in the source. -/
def SESSION_ACCOUNT_KEY_BASE : String := "account"

def IS_SCREEN_LOCKED_CACHE_KEY : String := "kz_is_screen_locked"

def DC_IDS : List Nat := [1, 2, 3, 4, 5]

/-- The flat legacy key `dc<N>_auth_key`. -/
def dcAuthKeyName (dcId : Nat) : String := "dc" ++ toString dcId ++ "_auth_key"

/-- The flat legacy key `dc<N>_hash`. -/
def dcHashKeyName (dcId : Nat) : String := "dc" ++ toString dcId ++ "_hash"

/-- The slotted storage key for an account slot.  The source computes
`SESSION_ACCOUNT_PREFIX + (slot || 1)`: slot 0 / absent uses key 1.
`ACCOUNT_SLOT : number | undefined` is embedded as a `Nat`, with `0`
standing for both `0` and `undefined` (they agree under `!` and `|| 1`,
the only uses). -/
def slotStorageKey (slot : Nat) : String :=
  SESSION_ACCOUNT_KEY_BASE ++ toString (if slot = 0 then 1 else slot)

/-- `ApiSessionData` as consumed by `storeSession`: main DC id, an
association of data-center ids to serialized auth keys, and the optional
test-environment flag. -/
structure ApiSessionData where
  mainDcId : Int
  keys : List (Nat × String)
  isTest : Option Bool

/-- `checkSessionLocked`: the raw stored string under the lock key
compares equal to `'true'` exactly when it is the canonical serialization
of the JSON value `true`. -/
def checkSessionLocked (store : Storage) : Bool :=
  match store IS_SCREEN_LOCKED_CACHE_KEY with
  | some (.json (.jbool true)) => true
  | _ => false

/-- The `try` body of `loadSlotSession` before the catch:
`JSON.parse(localStorage.getItem(key) || '{}')`, then
`if (!data.dcId) return undefined`.  `Except.error ()` is a thrown
`JSON.parse` exception. -/
def loadSlotSessionTry (store : Storage) (slot : Nat) : Except Unit (Option JVal) :=
  match store (slotStorageKey slot) with
  | none => .ok none
  | some (.corrupt _) => .error ()
  | some (.json v) => .ok (if truthy (jget v "dcId") then some v else none)

/-- `loadSlotSession`: the catch turns a parse failure into `undefined`. -/
def loadSlotSession (store : Storage) (slot : Nat) : Option JVal :=
  match loadSlotSessionTry store slot with
  | .ok r => r
  | .error _ => none

/-- The legacy branch of `hasStoredSession`: a stored legacy user-auth
string that parses to a value with truthy `id` and `dcID`. -/
def legacyAuthCheck (store : Storage) : Bool :=
  match store SESSION_LEGACY_USER_KEY with
  | some (.json userAuth) =>
    truthy (some userAuth) && truthy (jget userAuth "id") && truthy (jget userAuth "dcID")
  | _ => false

/-- `hasStoredSession`. -/
def hasStoredSession (store : Storage) (accountSlot : Nat) : Bool :=
  if checkSessionLocked store then
    true
  else
    match loadSlotSession store accountSlot with
    | some slotData => truthy (jget slotData "dcId")
    | none => if accountSlot = 0 then legacyAuthCheck store else false

/-- The new slot object built by `storeSession`:
`{ ...currentSlotData, dcId: mainDcId, isTest }` followed by
`newSlotData['dc<N>_auth_key'] = keys[N]` for each incoming key.  An
incoming `isTest` of `undefined` overrides the spread and the property
then vanishes under `JSON.stringify`. -/
def buildNewSlotData (cur : Option JVal) (sd : ApiSessionData) : JVal :=
  let base : List (String × JVal) :=
    match cur with
    | some (.jobj fields) => fields
    | _ => []
  let f1 := setField base "dcId" (.jnum sd.mainDcId)
  let f2 :=
    match sd.isTest with
    | some b => setField f1 "isTest" (.jbool b)
    | none => removeField f1 "isTest"
  .jobj (sd.keys.foldl (fun fs kv => setField fs (dcAuthKeyName kv.1) (.jstr kv.2)) f2)

/-- Modelled from the spec: `writeSlotSession` (from `util/multiaccount.ts`,
which is not among the sources; only its import and call sites are) persists
the slot object JSON-serialized under the slot's storage key — the
persistence surface holds "keys namespaced per account slot holding
JSON-serialized StoredSlotData". -/
def writeSlotSession (store : Storage) (slot : Nat) (data : JVal) : Storage :=
  setItem store (slotStorageKey slot) (.json data)

/-- `storeLegacySession`: writes the legacy user key (with `undefined`
fields dropped by `JSON.stringify`), the `'dc'` key (`String(mainDcId)`,
the canonical numeral), and one `dc<N>_auth_key` key per incoming key. -/
def storeLegacySession (store : Storage) (sd : ApiSessionData)
    (currentUserId : Option JVal) : Storage :=
  let userObj : List (String × JVal) :=
    [("dcID", .jnum sd.mainDcId)]
      ++ (match currentUserId with
          | some uid => [("id", uid)]
          | none => [])
      ++ (match sd.isTest with
          | some b => [("test", .jbool b)]
          | none => [])
  let s1 := setItem store SESSION_LEGACY_USER_KEY (.json (.jobj userObj))
  let s2 := setItem s1 "dc" (.json (.jnum sd.mainDcId))
  sd.keys.foldl
    (fun st kv => setItem st (dcAuthKeyName kv.1) (.json (.jstr kv.2))) s2

/-- `storeSession`: merges the incoming session data into the current slot
data; for the legacy slot (`!ACCOUNT_SLOT`) it first mirrors the data into
the legacy flat keys, then writes the slotted shape. -/
def storeSession (store : Storage) (accountSlot : Nat) (sd : ApiSessionData) : Storage :=
  let currentSlotData := loadSlotSession store accountSlot
  let newSlotData := buildNewSlotData currentSlotData sd
  let store1 :=
    if accountSlot = 0 then
      storeLegacySession store sd (currentSlotData.bind (fun v => jget v "userId"))
    else store
  writeSlotSession store1 accountSlot newSlotData

/-- `clearStoredLegacySession`: its whole body is commented out in the
source, so it removes nothing. -/
def clearStoredLegacySession (store : Storage) : Storage := store

/-- `clearStoredSession`. -/
def clearStoredSession (store : Storage) (slot : Nat) : Storage :=
  let s1 := if slot = 0 then clearStoredLegacySession store else store
  removeItem s1 (slotStorageKey slot)

/-- The session produced by the slotted path of `loadStoredSession`. -/
structure SlotSessionOut where
  mainDcId : Option JVal
  keys : List (Nat × JVal)
  isTest : Option JVal

/-- The session produced by `loadStoredLegacySession`; `mainDcId` is
`Number(userAuth.dcID)` with `none` encoding `NaN`. -/
structure LegacySessionOut where
  mainDcId : Option Int
  keys : List (Nat × JVal)
  isTest : Option JVal
  isLocalStorage : Bool
  initConnectionParams : Option JVal
  apiId : Option JVal
  apiHash : Option JVal

/-- A loaded session: the two paths of `loadStoredSession` produce
structurally different objects. -/
inductive SessionOut where
  | fromSlot (s : SlotSessionOut)
  | fromLegacy (l : LegacySessionOut)

/-- The slotted path's key collection: `slotData['dc<N>_auth_key']` for
each DC id, kept only when truthy (`if (key)`). -/
def slotKeysOf (slotData : JVal) : List (Nat × JVal) :=
  DC_IDS.foldl
    (fun acc dcId =>
      match jget slotData (dcAuthKeyName dcId) with
      | some v => if truthy (some v) then acc ++ [(dcId, v)] else acc
      | none => acc)
    []

/-- The slotted path's `isTest: slotData.isTest || undefined`. -/
def slotIsTest (slotData : JVal) : Option JVal :=
  if truthy (jget slotData "isTest") then jget slotData "isTest" else none

/-- The legacy path's key collection: each `dc<N>_auth_key` read is
assigned when present and parseable; a parse failure is caught (the
`dc<N>_hash` reads in the same try block do not reach the result). -/
def legacyDcKeys (store : Storage) : List (Nat × JVal) :=
  DC_IDS.foldl
    (fun acc dcId =>
      match store (dcAuthKeyName dcId) with
      | some (.json v) => acc ++ [(dcId, v)]
      | _ => acc)
    []

/-- The `user_entourage` block of `loadStoredLegacySession`: the parsed
entourage when it parses and both `apiId` and `apiHash` are truthy
(a parse failure is caught locally). -/
def entourageParams (store : Storage) : Option JVal :=
  match store "user_entourage" with
  | some (.json v) =>
    if truthy (jget v "apiId") && truthy (jget v "apiHash") then some v else none
  | _ => none

/-- `loadStoredLegacySession`.  The `JSON.parse` of the legacy user string
on line 142 is NOT wrapped in a try, so a corrupt legacy string throws out
of the function (`Except.error ()`). -/
def loadStoredLegacySession (store : Storage) (accountSlot : Nat) :
    Except Unit (Option SessionOut) :=
  if hasStoredSession store accountSlot = false then .ok none
  else
    match store SESSION_LEGACY_USER_KEY with
    | some (.corrupt _) => .error ()
    | c =>
      let userAuth : JVal :=
        match c with
        | some (.json v) => v
        | _ => .jnull
      if truthy (some userAuth) = false then .ok none
      else
        let keys := legacyDcKeys store
        if keys.isEmpty then .ok none
        else
          let entourage := entourageParams store
          .ok (some (.fromLegacy {
            mainDcId := jsNumber (jget userAuth "dcID")
            keys := keys
            isTest := jget userAuth "test"
            isLocalStorage := false
            initConnectionParams := entourage
            apiId := entourage.bind (fun v => jget v "apiId")
            apiHash := entourage.bind (fun v => jget v "apiHash") }))

/-- `loadStoredSession`. -/
def loadStoredSession (store : Storage) (accountSlot : Nat) :
    Except Unit (Option SessionOut) :=
  if hasStoredSession store accountSlot = false then .ok none
  else
    match loadSlotSession store accountSlot with
    | none =>
      if accountSlot ≠ 0 then .ok none
      else loadStoredLegacySession store accountSlot
    | some slotData =>
      .ok (some (.fromSlot {
        mainDcId := jget slotData "dcId"
        keys := slotKeysOf slotData
        isTest := slotIsTest slotData }))

/-
Request deduplication for `fetchFullChat` (src/unnamed/part_001, the
chats API).  `fullChatRequestDedupe` is a `Map<string, Promise<...>>`;
synchronous sections between awaits are atomic in the JS event loop, so
a call is one atomic transition on the map.  A promise is identified by
the id assigned when it is created; the resolved value a caller receives
is determined by the promise it holds.
-/

/-- The dedupe state: the pending-promise map keyed by chat id, a fresh
promise-id counter, and the log of underlying network requests issued
(one entry, the promise id, per `getFullChannelInfo`/`getFullChatInfo`
call started). -/
structure FullChatDedupe where
  pending : String → Option Nat
  nextId : Nat
  requestLog : List Nat

/-- One call to `fetchFullChat`: if a pending promise exists for the chat
id, return it (no network request); otherwise start the underlying
request, record its promise under the id, and return it. -/
def fetchFullChatStart (st : FullChatDedupe) (chatId : String) : Nat × FullChatDedupe :=
  match st.pending chatId with
  | some p => (p, st)
  | none =>
    let p := st.nextId
    (p,
      { pending := fun k => if k = chatId then some p else st.pending k
        nextId := p + 1
        requestLog := st.requestLog ++ [p] })

/-- The `promise.finally` handler: when the underlying call settles, its
chat id is deleted from the dedupe map. -/
def fullChatSettle (st : FullChatDedupe) (chatId : String) : FullChatDedupe :=
  { st with pending := fun k => if k = chatId then none else st.pending k }

/-
`deleteTopic` (src/unnamed/part_001, lines 1831-1851): invoke
`channels.DeleteTopicHistory`; on a missing result stop; otherwise process
the affected history and, while the response carries a non-zero offset,
reissue the same request.  The server is embedded as an oracle mapping
the call index to the response of that call; the recursion is run with
explicit fuel so that non-termination is representable.
-/

/-- The server response of one `DeleteTopicHistory` call: the affected
history carries the continuation offset (pts bookkeeping is consumed by
`processAffectedHistory` and abstracted away). -/
structure AffectedHistory where
  offset : Nat

/-- Run `deleteTopic` against a response oracle starting at call index
`i` with the given fuel: `some l` means the operation terminated having
passed exactly the responses `l`, in order, to `processAffectedHistory`;
`none` means the fuel was exhausted. -/
def deleteTopicRun (resp : Nat → Option AffectedHistory) :
    Nat → Nat → Option (List AffectedHistory)
  | 0, _ => none
  | fuel + 1, i =>
    match resp i with
    | none => some []
    | some r =>
      if r.offset = 0 then some [r]
      else (deleteTopicRun resp fuel (i + 1)).map (fun l => r :: l)

/-
The Update Sequencer.  Its implementation (`updateManager`) is not among
the sources — only its call sites are (`updateChannelState` in
`fetchChats` and `getFullChannelInfo`).  Modelled from the spec:
per scope it keeps `lastAppliedSeq` and a buffer of out-of-order updates;
on ingest, `seq == lastAppliedSeq + 1` applies immediately and
chain-applies buffered successors, `seq <= lastAppliedSeq` is discarded
as a duplicate, and `seq > lastAppliedSeq + 1` is buffered; a catch-up
checkpoint sets `lastAppliedSeq` to the server-reported value (never
rolling back), discards buffered updates it covers and chain-applies the
rest.  Updates are identified by their sequence numbers; the buffer is
kept sorted without duplicates.
-/

/-- Modelled from the spec: the `SequenceState` of one ordering scope. -/
structure SeqState where
  lastApplied : Nat
  buffer : List Nat

/-- Result of flushing the buffer: the new checkpoint, the remaining
buffer, and the updates delivered to subscribers. -/
structure DrainOut where
  last : Nat
  buffer : List Nat
  delivered : List Nat

/-- Modelled from the spec: chain-apply the sorted buffer against a
checkpoint — buffered updates at or below the checkpoint are discarded as
covered, an update exactly one above extends the chain and is delivered,
and the first farther update leaves a still-open gap. -/
def drain : Nat → List Nat → DrainOut
  | last, [] => ⟨last, [], []⟩
  | last, s :: rest =>
    if s ≤ last then drain last rest
    else if s = last + 1 then
      let r := drain (last + 1) rest
      ⟨r.last, r.buffer, s :: r.delivered⟩
    else ⟨last, s :: rest, []⟩

/-- Insert into the sorted duplicate-free buffer. -/
def insertSorted (s : Nat) : List Nat → List Nat
  | [] => [s]
  | x :: rest =>
    if s < x then s :: x :: rest
    else if s = x then x :: rest
    else x :: insertSorted s rest

/-- Modelled from the spec: ingest one update for the scope, returning
the new state and the updates delivered to subscribers. -/
def ingest (st : SeqState) (seq : Nat) : SeqState × List Nat :=
  if seq ≤ st.lastApplied then (st, [])
  else if seq = st.lastApplied + 1 then
    let r := drain seq st.buffer
    (⟨r.last, r.buffer⟩, seq :: r.delivered)
  else (⟨st.lastApplied, insertSorted seq st.buffer⟩, [])

/-- Modelled from the spec: apply a catch-up checkpoint — set
`lastAppliedSeq` to the server-reported value (never rolled back),
discard covered buffered updates, chain-apply the rest. -/
def applyCheckpoint (st : SeqState) (n : Nat) : SeqState × List Nat :=
  let r := drain (max st.lastApplied n) st.buffer
  (⟨r.last, r.buffer⟩, r.delivered)

/-- One inbound event for a scope: a pushed update or the result of a
catch-up fetch. -/
inductive SeqEvent where
  | push (seq : Nat)
  | catchUp (n : Nat)

/-- Step the sequencer by one event. -/
def seqStep (st : SeqState) : SeqEvent → SeqState × List Nat
  | .push s => ingest st s
  | .catchUp n => applyCheckpoint st n

/-- Run the sequencer over a sequence of events, collecting the updates
delivered to subscribers in order. -/
def seqRun (st : SeqState) : List SeqEvent → SeqState × List Nat
  | [] => (st, [])
  | e :: es =>
    let r1 := seqStep st e
    let r2 := seqRun r1.1 es
    (r2.1, r1.2 ++ r2.2)

/-- Well-formedness of a scope state: the buffer is sorted strictly
increasing and everything buffered is beyond the checkpoint. -/
def SeqWF (st : SeqState) : Prop :=
  st.buffer.Pairwise (· < ·) ∧ ∀ x ∈ st.buffer, st.lastApplied < x

/-- A demonstration store for C8: the lock flag is unset, slot 0 holds a
slotted session, and legacy single-account data exists alongside it. -/
def clearDemoStore : Storage :=
  setItem
    (setItem
      (setItem emptyStorage SESSION_LEGACY_USER_KEY
        (.json (.jobj [("id", .jstr "1"), ("dcID", .jnum 2)])))
      (dcAuthKeyName 2) (.json (.jstr "key2")))
    (slotStorageKey 0) (.json (.jobj [("dcId", .jnum 2)]))

/-- A demonstration save payload for C3. -/
def saveDemo : ApiSessionData := ⟨2, [(2, "key2")], none⟩

/-- The field list of the slot object written by `storeSession` over an
existing parsed slot object `cur`. -/
def newSlotFields (cur : List (String × JVal)) (sd : ApiSessionData) :
    List (String × JVal) :=
  let f1 := setField cur "dcId" (.jnum sd.mainDcId)
  let f2 :=
    match sd.isTest with
    | some b => setField f1 "isTest" (.jbool b)
    | none => removeField f1 "isTest"
  sd.keys.foldl (fun fs kv => setField fs (dcAuthKeyName kv.1) (.jstr kv.2)) f2

/-- Demonstration data for the C10 witness: an existing slot object with
a `userId` and an auth key for DC 1, and an incoming save for DC 2. -/
def c10Cur : List (String × JVal) :=
  [("dcId", .jnum 1), ("userId", .jstr "u42"), (dcAuthKeyName 1, .jstr "old1")]

def c10Store : Storage := setItem emptyStorage (slotStorageKey 1) (.json (.jobj c10Cur))

def c10sd : ApiSessionData := ⟨2, [(2, "new2")], some true⟩

/- Claim C6 compares the logical content of the two load paths: the main
DC id as a number, the collected auth keys, and the truthiness of the
test flag (the legacy record additionally carries `isLocalStorage` and
the entourage-derived fields, which have no slotted counterpart). -/

def coreMainDcId : SessionOut → Option Int
  | .fromSlot s =>
    match s.mainDcId with
    | some (.jnum n) => some n
    | _ => none
  | .fromLegacy l => l.mainDcId

def coreKeys : SessionOut → List (Nat × JVal)
  | .fromSlot s => s.keys
  | .fromLegacy l => l.keys

def coreIsTest : SessionOut → Bool
  | .fromSlot s => truthy s.isTest
  | .fromLegacy l => truthy l.isTest

/- Concrete stores for the C6 witness: the same logical session (DC 2,
one auth key for DC 2, test flag set) persisted once in the legacy layout
and once in the slotted layout. -/

def c6u : JVal := .jobj [("dcID", .jnum 2), ("id", .jstr "9"), ("test", .jbool true)]

def c6w : JVal :=
  .jobj [("dcId", .jnum 2), ("isTest", .jbool true), (dcAuthKeyName 2, .jstr "k2")]

def c6ka : Nat → Option String := fun i => if i = 2 then some "k2" else none

def c6L : Storage :=
  setItem (setItem emptyStorage SESSION_LEGACY_USER_KEY (.json c6u))
    (dcAuthKeyName 2) (.json (.jstr "k2"))

def c6S : Storage := setItem emptyStorage (slotStorageKey 0) (.json c6w)

/- Basic lemmas about the storage surface and key distinctness. -/

theorem setItem_self (st : Storage) (k : String) (c : StoredCell) :
    setItem st k c k = some c := by
  simp [setItem]

theorem setItem_ne (st : Storage) (k : String) (c : StoredCell) {q : String}
    (h : q ≠ k) : setItem st k c q = st q := by
  simp [setItem, h]

theorem removeItem_self (st : Storage) (k : String) : removeItem st k k = none := by
  simp [removeItem]

theorem removeItem_ne (st : Storage) (k : String) {q : String} (h : q ≠ k) :
    removeItem st k q = st q := by
  simp [removeItem, h]

theorem ne_of_headChar {s t : String} (h : s.data.head? ≠ t.data.head?) : s ≠ t :=
  fun he => h (he ▸ rfl)

theorem slotStorageKey_head (slot : Nat) :
    (slotStorageKey slot).data.head? = some 'a' := rfl

theorem dcAuthKeyName_head (i : Nat) : (dcAuthKeyName i).data.head? = some 'd' := rfl

theorem legacyKey_ne_slotKey (slot : Nat) :
    SESSION_LEGACY_USER_KEY ≠ slotStorageKey slot :=
  ne_of_headChar (by rw [slotStorageKey_head]; decide)

theorem lockKey_ne_slotKey (slot : Nat) :
    IS_SCREEN_LOCKED_CACHE_KEY ≠ slotStorageKey slot :=
  ne_of_headChar (by rw [slotStorageKey_head]; decide)

theorem dcKey_ne_slotKey (slot : Nat) : ("dc" : String) ≠ slotStorageKey slot :=
  ne_of_headChar (by rw [slotStorageKey_head]; decide)

theorem dcAuthKeyName_ne_slotKey (i slot : Nat) :
    dcAuthKeyName i ≠ slotStorageKey slot :=
  ne_of_headChar (by rw [slotStorageKey_head, dcAuthKeyName_head]; decide)

theorem entourageKey_ne_slotKey (slot : Nat) :
    ("user_entourage" : String) ≠ slotStorageKey slot :=
  ne_of_headChar (by rw [slotStorageKey_head]; decide)

/- Lemmas about object fields. -/

theorem lookupField_setField_self (l : List (String × JVal)) (k : String) (v : JVal) :
    lookupField (setField l k v) k = some v := by
  induction l with
  | nil => simp [setField, lookupField]
  | cons p rest ih =>
    by_cases h : p.1 = k
    · simp [setField, h, lookupField]
    · simp [setField, h, lookupField, ih]

theorem lookupField_setField_ne (l : List (String × JVal)) (k : String) (v : JVal)
    {q : String} (h : q ≠ k) :
    lookupField (setField l k v) q = lookupField l q := by
  induction l with
  | nil => simp [setField, lookupField, Ne.symm h]
  | cons p rest ih =>
    obtain ⟨pk, pv⟩ := p
    by_cases hp : pk = k
    · subst hp
      simp only [setField, if_pos rfl, lookupField]
      rw [if_neg (Ne.symm h), if_neg (Ne.symm h)]
    · simp only [setField, if_neg hp, lookupField]
      by_cases hq : pk = q
      · rw [if_pos hq, if_pos hq]
      · rw [if_neg hq, if_neg hq, ih]

theorem lookupField_eq_none (l : List (String × JVal)) {k : String}
    (h : k ∉ l.map Prod.fst) : lookupField l k = none := by
  induction l with
  | nil => rfl
  | cons p rest ih =>
    obtain ⟨pk, pv⟩ := p
    simp only [List.map_cons, List.mem_cons, not_or] at h
    simp only [lookupField]
    rw [if_neg (fun hh => h.1 hh.symm), ih h.2]

theorem lookupField_removeField_self (l : List (String × JVal)) (k : String)
    (hnd : (l.map Prod.fst).Nodup) :
    lookupField (removeField l k) k = none := by
  induction l with
  | nil => rfl
  | cons p rest ih =>
    obtain ⟨pk, pv⟩ := p
    simp only [List.map_cons, List.nodup_cons] at hnd
    by_cases hp : pk = k
    · subst hp
      simp only [removeField, if_pos rfl]
      exact lookupField_eq_none rest hnd.1
    · simp only [removeField, if_neg hp, lookupField]
      exact ih hnd.2

theorem lookupField_removeField_ne (l : List (String × JVal)) (k : String)
    {q : String} (h : q ≠ k) :
    lookupField (removeField l k) q = lookupField l q := by
  induction l with
  | nil => rfl
  | cons p rest ih =>
    obtain ⟨pk, pv⟩ := p
    by_cases hp : pk = k
    · subst hp
      simp [removeField, lookupField, Ne.symm h]
    · simp only [removeField, if_neg hp, lookupField]
      by_cases hq : pk = q
      · rw [if_pos hq, if_pos hq]
      · rw [if_neg hq, if_neg hq, ih]

/- Frame lemmas: removing the slot storage key leaves every other read of
the Session Store unchanged. -/

theorem checkSessionLocked_removeSlot (store : Storage) (slot : Nat) :
    checkSessionLocked (removeItem store (slotStorageKey slot)) = checkSessionLocked store := by
  unfold checkSessionLocked
  rw [removeItem_ne _ _ (lockKey_ne_slotKey slot)]

theorem legacyAuthCheck_removeSlot (store : Storage) (slot : Nat) :
    legacyAuthCheck (removeItem store (slotStorageKey slot)) = legacyAuthCheck store := by
  unfold legacyAuthCheck
  rw [removeItem_ne _ _ (legacyKey_ne_slotKey slot)]

theorem loadSlotSession_removeSlot (store : Storage) (slot : Nat) :
    loadSlotSession (removeItem store (slotStorageKey slot)) slot = none := by
  unfold loadSlotSession loadSlotSessionTry
  rw [removeItem_self]

theorem hasStoredSession_removeSlot (store : Storage) (slot : Nat)
    (h : loadSlotSession store slot = none) :
    hasStoredSession (removeItem store (slotStorageKey slot)) slot
      = hasStoredSession store slot := by
  unfold hasStoredSession
  rw [checkSessionLocked_removeSlot, loadSlotSession_removeSlot, h,
    legacyAuthCheck_removeSlot]

/- `filterMap` characterizations of the two key-collection folds. -/

theorem legacyDcKeysAux (store : Storage) (l : List Nat) (acc : List (Nat × JVal)) :
    l.foldl
      (fun acc dcId =>
        match store (dcAuthKeyName dcId) with
        | some (.json v) => acc ++ [(dcId, v)]
        | _ => acc)
      acc
    = acc ++ l.filterMap (fun dcId =>
        match store (dcAuthKeyName dcId) with
        | some (.json v) => some (dcId, v)
        | _ => none) := by
  induction l generalizing acc with
  | nil => simp
  | cons i rest ih =>
    simp only [List.foldl_cons, List.filterMap_cons]
    cases h : store (dcAuthKeyName i) with
    | none => simp only [h, ih]
    | some c =>
      cases c with
      | json v => simp only [h, ih, List.append_assoc, List.singleton_append]
      | corrupt t => simp only [h, ih]

theorem legacyDcKeys_eq (store : Storage) :
    legacyDcKeys store
      = DC_IDS.filterMap (fun dcId =>
          match store (dcAuthKeyName dcId) with
          | some (.json v) => some (dcId, v)
          | _ => none) := by
  unfold legacyDcKeys
  rw [legacyDcKeysAux]
  simp

theorem slotKeysOfAux (w : JVal) (l : List Nat) (acc : List (Nat × JVal)) :
    l.foldl
      (fun acc dcId =>
        match jget w (dcAuthKeyName dcId) with
        | some v => if truthy (some v) then acc ++ [(dcId, v)] else acc
        | none => acc)
      acc
    = acc ++ l.filterMap (fun dcId =>
        match jget w (dcAuthKeyName dcId) with
        | some v => if truthy (some v) then some (dcId, v) else none
        | none => none) := by
  induction l generalizing acc with
  | nil => simp
  | cons i rest ih =>
    simp only [List.foldl_cons, List.filterMap_cons]
    cases h : jget w (dcAuthKeyName i) with
    | none => simp only [h, ih]
    | some v =>
      by_cases ht : truthy (some v) = true
      · simp only [h, ht, if_true, ih, List.append_assoc, List.singleton_append]
      · simp [h, eq_false_of_ne_true ht, ih]

theorem slotKeysOf_eq (w : JVal) :
    slotKeysOf w
      = DC_IDS.filterMap (fun dcId =>
          match jget w (dcAuthKeyName dcId) with
          | some v => if truthy (some v) then some (dcId, v) else none
          | none => none) := by
  unfold slotKeysOf
  rw [slotKeysOfAux]
  simp

theorem legacyDcKeys_removeSlot (store : Storage) (slot : Nat) :
    legacyDcKeys (removeItem store (slotStorageKey slot)) = legacyDcKeys store := by
  rw [legacyDcKeys_eq, legacyDcKeys_eq]
  refine List.filterMap_congr (fun i _ => ?_)
  rw [removeItem_ne _ _ (dcAuthKeyName_ne_slotKey i slot)]

theorem entourageParams_removeSlot (store : Storage) (slot : Nat) :
    entourageParams (removeItem store (slotStorageKey slot)) = entourageParams store := by
  unfold entourageParams
  rw [removeItem_ne _ _ (entourageKey_ne_slotKey slot)]

theorem loadStoredLegacySession_removeSlot (store : Storage) (slot : Nat)
    (h : loadSlotSession store slot = none) :
    loadStoredLegacySession (removeItem store (slotStorageKey slot)) slot
      = loadStoredLegacySession store slot := by
  unfold loadStoredLegacySession
  rw [hasStoredSession_removeSlot store slot h,
    removeItem_ne _ _ (legacyKey_ne_slotKey slot),
    legacyDcKeys_removeSlot, entourageParams_removeSlot]

/-- Claim C4: for every storage state in which the screen-lock key holds
the string `'true'`, `hasStoredSession` reports `true`, for any account
slot, regardless of the slot and legacy data (which are not examined). -/
theorem claim_C4_lock_forces_has_stored_session (store : Storage) (accountSlot : Nat)
    (h : store IS_SCREEN_LOCKED_CACHE_KEY = some (.json (.jbool true))) :
    hasStoredSession store accountSlot = true := by
  unfold hasStoredSession checkSessionLocked
  rw [h]
  simp

/-- Witness for C4: a storage state holding only the lock flag (no slot
or legacy data at all) already reports a stored session. -/
theorem claim_C4_witness :
    (setItem emptyStorage IS_SCREEN_LOCKED_CACHE_KEY (.json (.jbool true)))
        IS_SCREEN_LOCKED_CACHE_KEY = some (.json (.jbool true))
    ∧ hasStoredSession (setItem emptyStorage IS_SCREEN_LOCKED_CACHE_KEY
        (.json (.jbool true))) 0 = true :=
  ⟨setItem_self _ _ _,
    claim_C4_lock_forces_has_stored_session _ 0 (setItem_self _ _ _)⟩

/-- Claim C9: a slot whose stored string parses to a value with no `dcId`
field is treated as having no session: `loadSlotSession` yields
`undefined`, and with the lock flag unset and the legacy fallback not
applying, `hasStoredSession` is `false`. -/
theorem claim_C9_no_dcid_means_no_session (store : Storage) (accountSlot : Nat)
    (v : JVal) (hslot : store (slotStorageKey accountSlot) = some (.json v))
    (hdc : jget v "dcId" = none)
    (hlock : checkSessionLocked store = false)
    (hleg : accountSlot = 0 → legacyAuthCheck store = false) :
    loadSlotSession store accountSlot = none
    ∧ hasStoredSession store accountSlot = false := by
  have hload : loadSlotSession store accountSlot = none := by
    unfold loadSlotSession loadSlotSessionTry
    rw [hslot]
    simp [hdc, truthy]
  refine ⟨hload, ?_⟩
  unfold hasStoredSession
  rw [hlock, hload]
  by_cases h0 : accountSlot = 0
  · simp [h0, hleg h0]
  · simp [h0]

/-- Witness for C9: a slot object `{"isTest": true}` with no `dcId`. -/
theorem claim_C9_witness :
    (setItem emptyStorage (slotStorageKey 2) (.json (.jobj [("isTest", .jbool true)])))
        (slotStorageKey 2) = some (.json (.jobj [("isTest", .jbool true)]))
    ∧ loadSlotSession (setItem emptyStorage (slotStorageKey 2)
        (.json (.jobj [("isTest", .jbool true)]))) 2 = none
    ∧ hasStoredSession (setItem emptyStorage (slotStorageKey 2)
        (.json (.jobj [("isTest", .jbool true)]))) 2 = false := by
  have h := claim_C9_no_dcid_means_no_session
    (setItem emptyStorage (slotStorageKey 2) (.json (.jobj [("isTest", .jbool true)])))
    2 (.jobj [("isTest", .jbool true)]) (setItem_self _ _ _) rfl rfl (fun h0 => by cases h0)
  exact ⟨setItem_self _ _ _, h.1, h.2⟩

/-- Claim C5: a slot whose stored string is not valid JSON loads as
`undefined` (the parse failure is caught inside `loadSlotSession`, which
is total), and the whole `loadStoredSession` behaves exactly as if the
slot key were absent; for a non-legacy slot this is `undefined` outright. -/
theorem claim_C5_corrupt_slot_fails_soft (store : Storage) (accountSlot : Nat) (tag : Nat)
    (h : store (slotStorageKey accountSlot) = some (.corrupt tag)) :
    loadSlotSession store accountSlot = none
    ∧ loadStoredSession store accountSlot
        = loadStoredSession (removeItem store (slotStorageKey accountSlot)) accountSlot
    ∧ (accountSlot ≠ 0 → loadStoredSession store accountSlot = .ok none) := by
  have hload : loadSlotSession store accountSlot = none := by
    unfold loadSlotSession loadSlotSessionTry
    rw [h]
  have hload2 := loadSlotSession_removeSlot store accountSlot
  have hhas := hasStoredSession_removeSlot store accountSlot hload
  have hlegacy := loadStoredLegacySession_removeSlot store accountSlot hload
  refine ⟨hload, ?_, ?_⟩
  · unfold loadStoredSession
    rw [hhas, hload, hload2, hlegacy]
  · intro h0
    unfold loadStoredSession
    rw [hload]
    by_cases hh : hasStoredSession store accountSlot = false
    · simp [hh]
    · simp [hh, h0]

/-- Witness for C5: a garbage string in slot 3's key loads as no session
and is indistinguishable from an absent key. -/
theorem claim_C5_witness :
    (setItem emptyStorage (slotStorageKey 3) (.corrupt 7)) (slotStorageKey 3)
        = some (.corrupt 7)
    ∧ loadSlotSession (setItem emptyStorage (slotStorageKey 3) (.corrupt 7)) 3 = none
    ∧ loadStoredSession (setItem emptyStorage (slotStorageKey 3) (.corrupt 7)) 3
        = .ok none := by
  have h := claim_C5_corrupt_slot_fails_soft
    (setItem emptyStorage (slotStorageKey 3) (.corrupt 7)) 3 7 (setItem_self _ _ _)
  exact ⟨setItem_self _ _ _, h.1, h.2.2 (by decide)⟩

/-- Counterexample to claim C8 as stated: with the lock flag unset, after
`clearStoredSession` for slot 0 the session is still reported present —
`clearStoredLegacySession`'s body is commented out, so the legacy data
survives, `hasStoredSession` stays `true` and loading still yields a
session instead of `undefined`. -/
theorem claim_C8_counterexample_clear_keeps_legacy :
    checkSessionLocked clearDemoStore = false
    ∧ hasStoredSession (clearStoredSession clearDemoStore 0) 0 = true
    ∧ loadStoredSession (clearStoredSession clearDemoStore 0) 0
        = .ok (some (.fromLegacy
            { mainDcId := some 2
              keys := [(2, .jstr "key2")]
              isTest := none
              isLocalStorage := false
              initConnectionParams := none
              apiId := none
              apiHash := none })) :=
  ⟨rfl, rfl, rfl⟩

/-- Claim C8, amended: clearing a stored session removes the slot's
slotted data unconditionally, and — provided the lock flag is unset and,
for slot 0, no valid legacy auth data exists (the legacy layout is never
cleared: `clearStoredLegacySession` is a no-op, so slot 0 may otherwise
still report a session through the legacy fallback) — afterwards
`hasStoredSession` is `false` and loading yields `undefined`. -/
theorem claim_C8_amended_clear (store : Storage) (slot : Nat)
    (hlock : checkSessionLocked store = false)
    (hleg : slot = 0 → legacyAuthCheck store = false) :
    loadSlotSession (clearStoredSession store slot) slot = none
    ∧ hasStoredSession (clearStoredSession store slot) slot = false
    ∧ loadStoredSession (clearStoredSession store slot) slot = .ok none
    ∧ (clearStoredSession store slot) SESSION_LEGACY_USER_KEY
        = store SESSION_LEGACY_USER_KEY := by
  have hc : clearStoredSession store slot = removeItem store (slotStorageKey slot) := by
    unfold clearStoredSession clearStoredLegacySession
    by_cases h0 : slot = 0 <;> simp [h0]
  have h1 : loadSlotSession (clearStoredSession store slot) slot = none := by
    rw [hc]
    exact loadSlotSession_removeSlot store slot
  have h2 : hasStoredSession (clearStoredSession store slot) slot = false := by
    unfold hasStoredSession
    rw [hc, checkSessionLocked_removeSlot, hlock, loadSlotSession_removeSlot,
      legacyAuthCheck_removeSlot]
    by_cases h0 : slot = 0
    · simp [h0, hleg h0]
    · simp [h0]
  refine ⟨h1, h2, ?_, ?_⟩
  · unfold loadStoredSession
    rw [h2]
    simp
  · rw [hc]
    exact removeItem_ne _ _ (legacyKey_ne_slotKey slot)

/-- Witness for the amended C8 at slot 2 with a stored slotted session. -/
theorem claim_C8_amended_witness :
    checkSessionLocked (setItem emptyStorage (slotStorageKey 2)
        (.json (.jobj [("dcId", .jnum 4)]))) = false
    ∧ hasStoredSession (clearStoredSession (setItem emptyStorage (slotStorageKey 2)
        (.json (.jobj [("dcId", .jnum 4)]))) 2) 2 = false := by
  have h := claim_C8_amended_clear
    (setItem emptyStorage (slotStorageKey 2) (.json (.jobj [("dcId", .jnum 4)])))
    2 rfl (fun h0 => by cases h0)
  exact ⟨rfl, h.2.1⟩

/-- Counterexample to claim C3 as stated: saving a session for the
default slot 0 writes the legacy flat keys — `storeSession` calls
`storeLegacySession` whenever `ACCOUNT_SLOT` is falsy, writing the legacy
user key, `'dc'` and `dc<N>_auth_key`. -/
theorem claim_C3_counterexample_legacy_write_on_save :
    emptyStorage "dc" = none
    ∧ storeSession emptyStorage 0 saveDemo "dc" = some (.json (.jnum 2))
    ∧ emptyStorage SESSION_LEGACY_USER_KEY = none
    ∧ storeSession emptyStorage 0 saveDemo SESSION_LEGACY_USER_KEY
        = some (.json (.jobj [("dcID", .jnum 2)]))
    ∧ storeSession emptyStorage 0 saveDemo (dcAuthKeyName 2)
        = some (.json (.jstr "key2")) :=
  ⟨rfl, rfl, rfl, rfl, rfl⟩

theorem storeKeysFold_ne (st : Storage) (keys : List (Nat × String)) (k : String)
    (h : ∀ i, i ∈ keys.map Prod.fst → k ≠ dcAuthKeyName i) :
    keys.foldl (fun st2 kv => setItem st2 (dcAuthKeyName kv.1) (.json (.jstr kv.2))) st k
      = st k := by
  induction keys generalizing st with
  | nil => rfl
  | cons kv rest ih =>
    simp only [List.foldl_cons]
    rw [ih _ (fun i hi => h i (by simp [hi]))]
    exact setItem_ne st _ _ (h kv.1 (by simp))

/-- Claim C3, amended: for any non-zero account slot a save writes only
the slotted storage key; for slot 0 a save writes the slotted key and
additionally rewrites the legacy flat keys (the legacy user key, `'dc'`
and one `dc<N>_auth_key` per incoming key), touching nothing else. -/
theorem claim_C3_amended_save_frame (store : Storage) (sd : ApiSessionData) :
    (∀ slot, slot ≠ 0 → ∀ k, k ≠ slotStorageKey slot →
      storeSession store slot sd k = store k)
    ∧ (∀ k, k ≠ slotStorageKey 0 → k ≠ SESSION_LEGACY_USER_KEY → k ≠ "dc" →
        (∀ i, i ∈ sd.keys.map Prod.fst → k ≠ dcAuthKeyName i) →
        storeSession store 0 sd k = store k) := by
  constructor
  · intro slot h0 k hk
    unfold storeSession writeSlotSession
    rw [if_neg h0]
    exact setItem_ne _ _ _ hk
  · intro k hk hleg hdc hauth
    unfold storeSession writeSlotSession storeLegacySession
    rw [if_pos rfl]
    rw [setItem_ne _ _ _ hk, storeKeysFold_ne _ _ _ hauth,
      setItem_ne _ _ _ hdc, setItem_ne _ _ _ hleg]

/-- Witness for the amended C3: a save to slot 1 leaves an unrelated key
untouched, and a save to slot 0 leaves a key that is neither the slot key
nor a legacy key untouched. -/
theorem claim_C3_amended_witness :
    ((1 : Nat) ≠ 0 ∧ ("other" : String) ≠ slotStorageKey 1)
    ∧ storeSession emptyStorage 1 saveDemo "other" = emptyStorage "other"
    ∧ storeSession emptyStorage 0 saveDemo "other" = emptyStorage "other" := by
  refine ⟨⟨by decide, by decide⟩, ?_, ?_⟩
  · exact (claim_C3_amended_save_frame emptyStorage saveDemo).1 1 (by decide) "other"
      (by decide)
  · exact (claim_C3_amended_save_frame emptyStorage saveDemo).2 "other" (by decide)
      (by decide) (by decide)
      (fun i hi => by
        simp [saveDemo] at hi
        subst hi
        decide)

/- Distinctness of the slot-object field names used by `storeSession`. -/

theorem dcAuthKeyName_ne_dcId : ∀ i ∈ DC_IDS, dcAuthKeyName i ≠ "dcId" := by decide

theorem dcAuthKeyName_ne_isTest : ∀ i ∈ DC_IDS, dcAuthKeyName i ≠ "isTest" := by decide

theorem dcAuthKeyName_ne_userId : ∀ i ∈ DC_IDS, dcAuthKeyName i ≠ "userId" := by decide

theorem dcAuthKeyName_injOn :
    ∀ i ∈ DC_IDS, ∀ j ∈ DC_IDS, dcAuthKeyName i = dcAuthKeyName j → i = j := by decide

theorem setField_map_fst_mem (l : List (String × JVal)) (k : String) (v : JVal)
    (x : String) :
    x ∈ (setField l k v).map Prod.fst ↔ x = k ∨ x ∈ l.map Prod.fst := by
  induction l with
  | nil => simp [setField]
  | cons p rest ih =>
    obtain ⟨pk, pv⟩ := p
    by_cases hp : pk = k
    · subst hp
      simp only [setField, eq_self_iff_true, if_true, List.map_cons, List.mem_cons]
      tauto
    · simp only [setField, if_neg hp, List.map_cons, List.mem_cons, ih]
      tauto

theorem setField_map_fst_nodup (l : List (String × JVal)) (k : String) (v : JVal)
    (h : (l.map Prod.fst).Nodup) : ((setField l k v).map Prod.fst).Nodup := by
  induction l with
  | nil => simp [setField]
  | cons p rest ih =>
    obtain ⟨pk, pv⟩ := p
    simp only [List.map_cons, List.nodup_cons] at h
    by_cases hp : pk = k
    · subst hp
      simp only [setField, eq_self_iff_true, if_true, List.map_cons, List.nodup_cons]
      exact ⟨h.1, h.2⟩
    · simp only [setField, if_neg hp, List.map_cons, List.nodup_cons]
      refine ⟨?_, ih h.2⟩
      rw [setField_map_fst_mem]
      rintro (hc | hc)
      · exact hp hc
      · exact h.1 hc

theorem lookupKeysFold_ne (keys : List (Nat × String)) (fs : List (String × JVal))
    (q : String) (h : ∀ i, i ∈ keys.map Prod.fst → q ≠ dcAuthKeyName i) :
    lookupField
        (keys.foldl (fun fs2 kv => setField fs2 (dcAuthKeyName kv.1) (.jstr kv.2)) fs) q
      = lookupField fs q := by
  induction keys generalizing fs with
  | nil => rfl
  | cons kv rest ih =>
    simp only [List.foldl_cons]
    rw [ih _ (fun i hi => h i (by simp [hi]))]
    exact lookupField_setField_ne _ _ _ (h kv.1 (by simp))

theorem lookupKeysFold_mem (keys : List (Nat × String)) (fs : List (String × JVal))
    (i : Nat) (k : String) (hmem : (i, k) ∈ keys)
    (hnd : (keys.map Prod.fst).Nodup)
    (hdom : ∀ j ∈ keys.map Prod.fst, j ∈ DC_IDS) :
    lookupField
        (keys.foldl (fun fs2 kv => setField fs2 (dcAuthKeyName kv.1) (.jstr kv.2)) fs)
        (dcAuthKeyName i)
      = some (.jstr k) := by
  induction keys generalizing fs with
  | nil => cases hmem
  | cons kv rest ih =>
    simp only [List.map_cons, List.nodup_cons] at hnd
    rcases List.mem_cons.mp hmem with hh | hh
    · subst hh
      simp only [List.foldl_cons]
      rw [lookupKeysFold_ne rest _ _ (fun j hj heq => by
        have hiDC : i ∈ DC_IDS := hdom i (by simp)
        have hjDC : j ∈ DC_IDS := hdom j (by simp [hj])
        exact hnd.1 (dcAuthKeyName_injOn i hiDC j hjDC heq ▸ hj))]
      exact lookupField_setField_self _ _ _
    · simp only [List.foldl_cons]
      exact ih _ hh hnd.2 (fun j hj => hdom j (by simp [hj]))

theorem buildNewSlotData_obj (cur : List (String × JVal)) (sd : ApiSessionData) :
    buildNewSlotData (some (.jobj cur)) sd = .jobj (newSlotFields cur sd) := rfl

theorem newSlotFields_lookup_other (cur : List (String × JVal)) (sd : ApiSessionData)
    (q : String) (hq1 : q ≠ "dcId") (hq2 : q ≠ "isTest")
    (hq3 : ∀ i, i ∈ sd.keys.map Prod.fst → q ≠ dcAuthKeyName i) :
    lookupField (newSlotFields cur sd) q = lookupField cur q := by
  simp only [newSlotFields]
  rw [lookupKeysFold_ne _ _ _ hq3]
  cases sd.isTest with
  | none => rw [lookupField_removeField_ne _ _ hq2, lookupField_setField_ne _ _ _ hq1]
  | some b => rw [lookupField_setField_ne _ _ _ hq2, lookupField_setField_ne _ _ _ hq1]

theorem newSlotFields_dcId (cur : List (String × JVal)) (sd : ApiSessionData)
    (hdom : ∀ i ∈ sd.keys.map Prod.fst, i ∈ DC_IDS) :
    lookupField (newSlotFields cur sd) "dcId" = some (.jnum sd.mainDcId) := by
  simp only [newSlotFields]
  rw [lookupKeysFold_ne _ _ _
    (fun i hi => Ne.symm (dcAuthKeyName_ne_dcId i (hdom i hi)))]
  cases sd.isTest with
  | none =>
    rw [lookupField_removeField_ne _ _ (by decide), lookupField_setField_self]
  | some b =>
    rw [lookupField_setField_ne _ _ _ (by decide), lookupField_setField_self]

theorem newSlotFields_isTest (cur : List (String × JVal)) (sd : ApiSessionData)
    (hdom : ∀ i ∈ sd.keys.map Prod.fst, i ∈ DC_IDS)
    (hcnd : (cur.map Prod.fst).Nodup) :
    lookupField (newSlotFields cur sd) "isTest"
      = (sd.isTest.map (fun b => JVal.jbool b)) := by
  cases hT : sd.isTest with
  | none =>
    simp only [newSlotFields, hT, Option.map_none']
    rw [lookupKeysFold_ne _ _ _
      (fun i hi => Ne.symm (dcAuthKeyName_ne_isTest i (hdom i hi)))]
    exact lookupField_removeField_self _ _
      (setField_map_fst_nodup _ _ _ hcnd)
  | some b =>
    simp only [newSlotFields, hT, Option.map_some']
    rw [lookupKeysFold_ne _ _ _
      (fun i hi => Ne.symm (dcAuthKeyName_ne_isTest i (hdom i hi)))]
    exact lookupField_setField_self _ _ _

theorem newSlotFields_incoming (cur : List (String × JVal)) (sd : ApiSessionData)
    (i : Nat) (k : String) (hmem : (i, k) ∈ sd.keys)
    (hnd : (sd.keys.map Prod.fst).Nodup)
    (hdom : ∀ i ∈ sd.keys.map Prod.fst, i ∈ DC_IDS) :
    lookupField (newSlotFields cur sd) (dcAuthKeyName i) = some (.jstr k) := by
  simp only [newSlotFields]
  exact lookupKeysFold_mem _ _ _ _ hmem hnd hdom

/-- Claim C10: saving merges into the existing slot object — the stored
`userId` and the auth keys of data centers absent from the incoming keys
map survive unchanged, while `dcId`, `isTest` and the auth keys of the
incoming data centers are overwritten (an absent incoming `isTest`
removes the stored one). -/
theorem claim_C10_store_session_preserves_fields (store : Storage) (slot : Nat)
    (sd : ApiSessionData) (cur : List (String × JVal))
    (hcur : store (slotStorageKey slot) = some (.json (.jobj cur)))
    (hdcid : truthy (lookupField cur "dcId") = true)
    (hcnd : (cur.map Prod.fst).Nodup)
    (hnd : (sd.keys.map Prod.fst).Nodup)
    (hdom : ∀ i ∈ sd.keys.map Prod.fst, i ∈ DC_IDS) :
    storeSession store slot sd (slotStorageKey slot)
        = some (.json (.jobj (newSlotFields cur sd)))
    ∧ lookupField (newSlotFields cur sd) "userId" = lookupField cur "userId"
    ∧ (∀ i ∈ DC_IDS, i ∉ sd.keys.map Prod.fst →
        lookupField (newSlotFields cur sd) (dcAuthKeyName i)
          = lookupField cur (dcAuthKeyName i))
    ∧ lookupField (newSlotFields cur sd) "dcId" = some (.jnum sd.mainDcId)
    ∧ (∀ b, sd.isTest = some b →
        lookupField (newSlotFields cur sd) "isTest" = some (.jbool b))
    ∧ (sd.isTest = none → lookupField (newSlotFields cur sd) "isTest" = none)
    ∧ (∀ i k, (i, k) ∈ sd.keys →
        lookupField (newSlotFields cur sd) (dcAuthKeyName i) = some (.jstr k)) := by
  have hload : loadSlotSession store slot = some (.jobj cur) := by
    unfold loadSlotSession loadSlotSessionTry
    rw [hcur]
    simp [jget, hdcid]
  refine ⟨?_, ?_, ?_, ?_, ?_, ?_, ?_⟩
  · unfold storeSession writeSlotSession
    rw [hload, buildNewSlotData_obj]
    exact setItem_self _ _ _
  · exact newSlotFields_lookup_other cur sd "userId" (by decide) (by decide)
      (fun i hi => Ne.symm (dcAuthKeyName_ne_userId i (hdom i hi)))
  · intro i hiDC hinot
    refine newSlotFields_lookup_other cur sd (dcAuthKeyName i)
      (dcAuthKeyName_ne_dcId i hiDC) (dcAuthKeyName_ne_isTest i hiDC)
      (fun j hj heq => ?_)
    exact hinot (dcAuthKeyName_injOn i hiDC j (hdom j hj) heq ▸ hj)
  · exact newSlotFields_dcId cur sd hdom
  · intro b hb
    have h := newSlotFields_isTest cur sd hdom hcnd
    rw [hb] at h
    exact h
  · intro hb
    have h := newSlotFields_isTest cur sd hdom hcnd
    rw [hb] at h
    exact h
  · exact fun i k hmem => newSlotFields_incoming cur sd i k hmem hnd hdom

/-- Witness for C10: after the save, `userId` and DC 1's auth key are
unchanged while `dcId`, `isTest` and DC 2's auth key are overwritten. -/
theorem claim_C10_witness :
    truthy (lookupField c10Cur "dcId") = true
    ∧ (storeSession c10Store 1 c10sd (slotStorageKey 1)
          = some (.json (.jobj (newSlotFields c10Cur c10sd)))
      ∧ lookupField (newSlotFields c10Cur c10sd) "userId" = lookupField c10Cur "userId"
      ∧ (∀ i ∈ DC_IDS, i ∉ c10sd.keys.map Prod.fst →
          lookupField (newSlotFields c10Cur c10sd) (dcAuthKeyName i)
            = lookupField c10Cur (dcAuthKeyName i))
      ∧ lookupField (newSlotFields c10Cur c10sd) "dcId" = some (.jnum c10sd.mainDcId)
      ∧ (∀ b, c10sd.isTest = some b →
          lookupField (newSlotFields c10Cur c10sd) "isTest" = some (.jbool b))
      ∧ (c10sd.isTest = none → lookupField (newSlotFields c10Cur c10sd) "isTest" = none)
      ∧ (∀ i k, (i, k) ∈ c10sd.keys →
          lookupField (newSlotFields c10Cur c10sd) (dcAuthKeyName i)
            = some (.jstr k))) :=
  ⟨rfl, claim_C10_store_session_preserves_fields c10Store 1 c10sd c10Cur
    (setItem_self _ _ _) rfl (by decide) (by decide) (by decide)⟩

/-- Claim C2: with no pending call for the chat id, two `fetchFullChat`
calls before the first settles share one promise — the second call
returns the first call's promise (hence resolves to the same value),
exactly one underlying request is issued for the two calls, the dedupe
key maps to exactly that one pending call, settling removes the key, and
a call after settling issues a fresh request. -/
theorem claim_C2_full_chat_dedupe (st : FullChatDedupe) (chatId : String)
    (h : st.pending chatId = none) :
    (fetchFullChatStart (fetchFullChatStart st chatId).2 chatId).1
        = (fetchFullChatStart st chatId).1
    ∧ (fetchFullChatStart (fetchFullChatStart st chatId).2 chatId).2.requestLog
        = st.requestLog ++ [(fetchFullChatStart st chatId).1]
    ∧ (fetchFullChatStart (fetchFullChatStart st chatId).2 chatId).2.pending chatId
        = some (fetchFullChatStart st chatId).1
    ∧ (fullChatSettle (fetchFullChatStart (fetchFullChatStart st chatId).2 chatId).2
        chatId).pending chatId = none
    ∧ (fetchFullChatStart
        (fullChatSettle (fetchFullChatStart (fetchFullChatStart st chatId).2 chatId).2
          chatId) chatId).2.requestLog
        = st.requestLog ++ [(fetchFullChatStart st chatId).1]
          ++ [(fetchFullChatStart
                (fullChatSettle
                  (fetchFullChatStart (fetchFullChatStart st chatId).2 chatId).2
                  chatId) chatId).1] := by
  simp [fetchFullChatStart, fullChatSettle, h]

/-- Witness for C2 from the empty dedupe state. -/
theorem claim_C2_witness :
    (FullChatDedupe.mk (fun _ => none) 0 []).pending "chat1" = none
    ∧ ((fetchFullChatStart
          (fetchFullChatStart (FullChatDedupe.mk (fun _ => none) 0 []) "chat1").2
          "chat1").1
        = (fetchFullChatStart (FullChatDedupe.mk (fun _ => none) 0 []) "chat1").1
      ∧ (fetchFullChatStart
          (fetchFullChatStart (FullChatDedupe.mk (fun _ => none) 0 []) "chat1").2
          "chat1").2.requestLog
        = (FullChatDedupe.mk (fun _ => none) 0 []).requestLog
          ++ [(fetchFullChatStart (FullChatDedupe.mk (fun _ => none) 0 []) "chat1").1]) := by
  refine ⟨rfl, ?_, ?_⟩
  · exact (claim_C2_full_chat_dedupe (FullChatDedupe.mk (fun _ => none) 0 []) "chat1" rfl).1
  · exact (claim_C2_full_chat_dedupe
      (FullChatDedupe.mk (fun _ => none) 0 []) "chat1" rfl).2.1

theorem deleteTopicRun_succ (resp : Nat → Option AffectedHistory) (f i : Nat) :
    deleteTopicRun resp (f + 1) i
      = match resp i with
        | none => some []
        | some r =>
          if r.offset = 0 then some [r]
          else (deleteTopicRun resp f (i + 1)).map (fun l => r :: l) := rfl

theorem deleteTopicRun_fuel_mono (resp : Nat → Option AffectedHistory) :
    ∀ fuel i l, deleteTopicRun resp fuel i = some l →
    ∀ fuel2, fuel ≤ fuel2 → deleteTopicRun resp fuel2 i = some l := by
  intro fuel
  induction fuel with
  | zero => intro i l hl; cases hl
  | succ f ih =>
    intro i l hl fuel2 hf
    obtain ⟨f2, rfl⟩ : ∃ f2, fuel2 = f2 + 1 :=
      ⟨fuel2 - 1, (Nat.succ_pred_eq_of_pos (Nat.lt_of_lt_of_le (Nat.succ_pos f) hf)).symm⟩
    rw [deleteTopicRun_succ] at hl ⊢
    cases hresp : resp i with
    | none => rw [hresp] at hl; exact hl
    | some r =>
      rw [hresp] at hl
      have hl2 : (if r.offset = 0 then some [r]
          else (deleteTopicRun resp f (i + 1)).map (fun t => r :: t)) = some l := hl
      show (if r.offset = 0 then some [r]
          else (deleteTopicRun resp f2 (i + 1)).map (fun t => r :: t)) = some l
      by_cases hz : r.offset = 0
      · rw [if_pos hz] at hl2
        rw [if_pos hz]
        exact hl2
      · rw [if_neg hz] at hl2
        rw [if_neg hz]
        cases hrec : deleteTopicRun resp f (i + 1) with
        | none => rw [hrec] at hl2; cases hl2
        | some t =>
          rw [hrec] at hl2
          rw [ih (i + 1) t hrec f2 (Nat.le_of_succ_le_succ hf)]
          exact hl2

theorem deleteTopicRun_until_zero (resp : Nat → Option AffectedHistory) :
    ∀ k i rk, (∀ j, j < k → ∃ r, resp (i + j) = some r ∧ r.offset ≠ 0) →
    resp (i + k) = some rk → rk.offset = 0 →
    ∃ l, deleteTopicRun resp (k + 1) i = some l
      ∧ l.length = k + 1
      ∧ (∀ j, j ≤ k → l[j]? = resp (i + j)) := by
  intro k
  induction k with
  | zero =>
    intro i rk _ hk hz
    rw [Nat.add_zero] at hk
    refine ⟨[rk], ?_, rfl, ?_⟩
    · rw [deleteTopicRun_succ, hk]
      show (if rk.offset = 0 then some [rk]
        else (deleteTopicRun resp 0 (i + 1)).map (fun t => rk :: t)) = some [rk]
      rw [if_pos hz]
    · intro j hj
      interval_cases j
      rw [Nat.add_zero, hk]
      simp
  | succ k ih =>
    intro i rk hlt hk hz
    obtain ⟨r0, hr0, hr0nz⟩ := hlt 0 (Nat.succ_pos k)
    rw [Nat.add_zero] at hr0
    obtain ⟨l2, hl2, hlen2, hget2⟩ := ih (i + 1) rk
      (fun j hj => by
        obtain ⟨r, hr, hnz⟩ := hlt (j + 1) (Nat.succ_lt_succ hj)
        exact ⟨r, by rw [show i + 1 + j = i + (j + 1) from by omega]; exact hr, hnz⟩)
      (by rw [show i + 1 + k = i + (k + 1) from by omega]; exact hk) hz
    refine ⟨r0 :: l2, ?_, by simp [hlen2], ?_⟩
    · rw [deleteTopicRun_succ, hr0]
      show (if r0.offset = 0 then some [r0]
        else (deleteTopicRun resp (k + 1) (i + 1)).map (fun t => r0 :: t))
        = some (r0 :: l2)
      rw [if_neg hr0nz, hl2]
      rfl
    · intro j hj
      cases j with
      | zero =>
        rw [Nat.add_zero, hr0]
        simp
      | succ j2 =>
        rw [show i + (j2 + 1) = i + 1 + j2 from by omega]
        simpa using hget2 j2 (Nat.le_of_succ_le_succ hj)

theorem deleteTopicRun_terminates_of_decreasing (resp : Nat → Option AffectedHistory)
    (hdec : ∀ i r r2, resp i = some r → r.offset ≠ 0 → resp (i + 1) = some r2 →
      r2.offset < r.offset) :
    ∀ i r, resp i = some r → ∃ l, deleteTopicRun resp (r.offset + 1) i = some l := by
  suffices hs : ∀ m i r, resp i = some r → r.offset = m →
      ∃ l, deleteTopicRun resp (m + 1) i = some l by
    intro i r hr
    exact hs r.offset i r hr rfl
  intro m
  induction m using Nat.strong_induction_on with
  | _ m ih =>
    intro i r hr hm
    cases m with
    | zero =>
      refine ⟨[r], ?_⟩
      rw [deleteTopicRun_succ, hr]
      show (if r.offset = 0 then some [r]
        else (deleteTopicRun resp 0 (i + 1)).map (fun t => r :: t)) = some [r]
      rw [if_pos hm]
    | succ m2 =>
      rw [deleteTopicRun_succ, hr]
      show ∃ l, (if r.offset = 0 then some [r]
        else (deleteTopicRun resp (m2 + 1) (i + 1)).map (fun t => r :: t)) = some l
      rw [if_neg (by rw [hm]; exact Nat.succ_ne_zero m2)]
      cases hr2 : resp (i + 1) with
      | none =>
        have h1 : deleteTopicRun resp (m2 + 1) (i + 1) = some [] := by
          rw [deleteTopicRun_succ, hr2]
        rw [h1]
        exact ⟨[r], rfl⟩
      | some r2 =>
        have hlt : r2.offset < m2 + 1 := by
          have h2 := hdec i r r2 hr (by rw [hm]; exact Nat.succ_ne_zero m2) hr2
          rw [hm] at h2
          exact h2
        obtain ⟨l2, hl2⟩ := ih r2.offset hlt (i + 1) r2 hr2 rfl
        rw [deleteTopicRun_fuel_mono resp (r2.offset + 1) (i + 1) l2 hl2 (m2 + 1) hlt]
        exact ⟨r :: l2, rfl⟩

/-- Claim C7: `deleteTopic` reissues the request while the response
carries a non-zero offset, passing each response's affected history to
`processAffectedHistory`: when the first `k` responses have non-zero
offsets and the next has offset zero, the run performs exactly `k + 1`
calls, processes every response in order, and stops; and whenever the
reported offsets strictly decrease across successive responses, the run
terminates within `offset + 1` calls. -/
theorem claim_C7_delete_topic_retry_until_zero (resp : Nat → Option AffectedHistory) :
    (∀ k rk, (∀ j, j < k → ∃ r, resp j = some r ∧ r.offset ≠ 0) →
      resp k = some rk → rk.offset = 0 →
      ∃ l, deleteTopicRun resp (k + 1) 0 = some l
        ∧ l.length = k + 1
        ∧ (∀ j, j ≤ k → l[j]? = resp j))
    ∧ ((∀ i r r2, resp i = some r → r.offset ≠ 0 → resp (i + 1) = some r2 →
          r2.offset < r.offset) →
        ∀ i r, resp i = some r → ∃ l, deleteTopicRun resp (r.offset + 1) i = some l) := by
  constructor
  · intro k rk hlt hk hz
    have h := deleteTopicRun_until_zero resp k 0 rk
      (fun j hj => by simpa using hlt j hj) (by simpa using hk) hz
    obtain ⟨l, h1, h2, h3⟩ := h
    exact ⟨l, h1, h2, fun j hj => by simpa using h3 j hj⟩
  · exact deleteTopicRun_terminates_of_decreasing resp

/-- Witness for C7: a server that reports offsets 2, 1 and then 0 is
called exactly three times and every response is processed. -/
theorem claim_C7_witness :
    ((fun i => if i = 0 then some ⟨2⟩ else if i = 1 then some ⟨1⟩ else some ⟨0⟩ :
        Nat → Option AffectedHistory) 2 = some ⟨0⟩)
    ∧ ∃ l, deleteTopicRun
        (fun i => if i = 0 then some ⟨2⟩ else if i = 1 then some ⟨1⟩ else some ⟨0⟩)
        3 0 = some l
      ∧ l.length = 3
      ∧ (∀ j, j ≤ 2 → l[j]?
          = (fun i => if i = 0 then some ⟨2⟩ else if i = 1 then some ⟨1⟩ else some ⟨0⟩ :
              Nat → Option AffectedHistory) j) := by
  refine ⟨rfl, ?_⟩
  exact (claim_C7_delete_topic_retry_until_zero
    (fun i => if i = 0 then some ⟨2⟩ else if i = 1 then some ⟨1⟩ else some ⟨0⟩)).1
    2 ⟨0⟩
    (fun j hj => by interval_cases j <;> exact ⟨_, rfl, by decide⟩)
    rfl rfl

theorem truthy_jnum_of_ne {d : Int} (hd : d ≠ 0) :
    truthy (some (.jnum d)) = true := by
  simp [truthy]
  exact hd

theorem truthy_slotIsTest (w : JVal) :
    truthy (slotIsTest w) = truthy (jget w "isTest") := by
  unfold slotIsTest
  by_cases h : truthy (jget w "isTest") = true
  · rw [if_pos h, h]
  · rw [if_neg h, eq_false_of_ne_true h]
    rfl

/-- Claim C6: a legacy-only persisted session (no slotted data, valid
legacy keys) loads to a session whose logical content — main DC id,
per-DC auth keys, test flag — equals what the slotted path produces from
the same logical data; both loads are pure functions of the storage
state, so repeated loads agree by construction. -/
theorem claim_C6_legacy_load_refines_slotted
    (L S : Storage) (u w : JVal) (d : Int) (ka : Nat → Option String)
    (hL0 : L (slotStorageKey 0) = none)
    (hLu : L SESSION_LEGACY_USER_KEY = some (.json u))
    (hud : jget u "dcID" = some (.jnum d))
    (hd : d ≠ 0)
    (huid : truthy (jget u "id") = true)
    (hlock : checkSessionLocked L = false)
    (hLk : ∀ i ∈ DC_IDS,
      L (dcAuthKeyName i) = (ka i).map (fun k => StoredCell.json (.jstr k)))
    (hS : S (slotStorageKey 0) = some (.json w))
    (hwd : jget w "dcId" = some (.jnum d))
    (hwk : ∀ i ∈ DC_IDS, jget w (dcAuthKeyName i) = (ka i).map JVal.jstr)
    (hkne : ∀ i k, ka i = some k → k ≠ "")
    (hne : ∃ i ∈ DC_IDS, ka i ≠ none)
    (htest : truthy (jget u "test") = truthy (jget w "isTest")) :
    ∃ lg sl, loadStoredSession L 0 = .ok (some (.fromLegacy lg))
      ∧ loadStoredSession S 0 = .ok (some (.fromSlot sl))
      ∧ coreMainDcId (.fromLegacy lg) = some d
      ∧ coreMainDcId (.fromSlot sl) = some d
      ∧ coreKeys (.fromLegacy lg) = coreKeys (.fromSlot sl)
      ∧ coreIsTest (.fromLegacy lg) = coreIsTest (.fromSlot sl) := by
  have hdtrue : truthy (some (.jnum d)) = true := truthy_jnum_of_ne hd
  have hobj : truthy (some u) = true := by
    cases u with
    | jobj fu => rfl
    | jnull => simp [jget] at hud
    | jbool b => simp [jget] at hud
    | jnum n => simp [jget] at hud
    | jstr s2 => simp [jget] at hud
  have hLslot : loadSlotSession L 0 = none := by
    unfold loadSlotSession loadSlotSessionTry
    rw [hL0]
  have hLauth : legacyAuthCheck L = true := by
    unfold legacyAuthCheck
    rw [hLu]
    simp only [hobj, huid, hud, hdtrue]
    rfl
  have hLhas : hasStoredSession L 0 = true := by
    unfold hasStoredSession
    rw [hlock, hLslot]
    simp [hLauth]
  have hkeyform : legacyDcKeys L
      = DC_IDS.filterMap (fun i => (ka i).map (fun k => (i, JVal.jstr k))) := by
    rw [legacyDcKeys_eq]
    refine List.filterMap_congr (fun i hi => ?_)
    rw [hLk i hi]
    cases ka i with
    | none => rfl
    | some k => rfl
  have hkeymem : legacyDcKeys L ≠ [] := by
    obtain ⟨i, hi, hka⟩ := hne
    cases hk : ka i with
    | none => exact absurd hk hka
    | some k =>
      rw [hkeyform]
      exact List.ne_nil_of_mem
        (List.mem_filterMap.mpr ⟨i, hi, by rw [hk]; rfl⟩)
  have hkeysEmpty : (legacyDcKeys L).isEmpty = false := by
    cases hcase : legacyDcKeys L with
    | nil => exact absurd hcase hkeymem
    | cons a t => rfl
  have hSslot : loadSlotSession S 0 = some w := by
    unfold loadSlotSession loadSlotSessionTry
    rw [hS]
    simp only [hwd, hdtrue]
    rfl
  have hShas : hasStoredSession S 0 = true := by
    unfold hasStoredSession
    by_cases hcl : checkSessionLocked S = true
    · rw [hcl]
      simp
    · rw [eq_false_of_ne_true hcl, hSslot]
      simp only [hwd, hdtrue]
      simp
  have hslotkeys : slotKeysOf w
      = DC_IDS.filterMap (fun i => (ka i).map (fun k => (i, JVal.jstr k))) := by
    rw [slotKeysOf_eq]
    refine List.filterMap_congr (fun i hi => ?_)
    rw [hwk i hi]
    cases hk : ka i with
    | none => rfl
    | some k =>
      have hkne2 : (k == "") = false := by
        cases hkk : k == "" with
        | false => rfl
        | true => exact absurd (eq_of_beq hkk) (hkne i k hk)
      show (if truthy (some (.jstr k)) = true then some (i, JVal.jstr k) else none)
        = some (i, JVal.jstr k)
      simp [truthy, hkne2]
  refine ⟨{ mainDcId := jsNumber (jget u "dcID")
            keys := legacyDcKeys L
            isTest := jget u "test"
            isLocalStorage := false
            initConnectionParams := entourageParams L
            apiId := (entourageParams L).bind (fun v => jget v "apiId")
            apiHash := (entourageParams L).bind (fun v => jget v "apiHash") },
          { mainDcId := jget w "dcId"
            keys := slotKeysOf w
            isTest := slotIsTest w }, ?_, ?_, ?_, ?_, ?_, ?_⟩
  · unfold loadStoredSession
    rw [hLhas, hLslot]
    simp only [Ne, not_true, not_false_iff, if_neg, if_true]
    show loadStoredLegacySession L 0 = _
    unfold loadStoredLegacySession
    rw [hLhas, hLu]
    show (if truthy (some u) = false then Except.ok none else _) = _
    rw [hobj]
    simp only [Bool.true_eq_false, if_false, hkeysEmpty]
    rfl
  · unfold loadStoredSession
    rw [hShas, hSslot]
    simp
  · show jsNumber (jget u "dcID") = some d
    rw [hud]
    rfl
  · show (match jget w "dcId" with
      | some (.jnum n) => some n
      | _ => none) = some d
    rw [hwd]
  · show legacyDcKeys L = slotKeysOf w
    rw [hkeyform, hslotkeys]
  · show truthy (jget u "test") = truthy (slotIsTest w)
    rw [truthy_slotIsTest]
    exact htest

/-- Witness for C6 at the concrete legacy-only and slotted-only stores. -/
theorem claim_C6_witness :
    c6L SESSION_LEGACY_USER_KEY = some (.json c6u)
    ∧ c6L (slotStorageKey 0) = none
    ∧ ∃ lg sl, loadStoredSession c6L 0 = .ok (some (.fromLegacy lg))
      ∧ loadStoredSession c6S 0 = .ok (some (.fromSlot sl))
      ∧ coreMainDcId (.fromLegacy lg) = some 2
      ∧ coreMainDcId (.fromSlot sl) = some 2
      ∧ coreKeys (.fromLegacy lg) = coreKeys (.fromSlot sl)
      ∧ coreIsTest (.fromLegacy lg) = coreIsTest (.fromSlot sl) := by
  refine ⟨rfl, rfl, ?_⟩
  exact claim_C6_legacy_load_refines_slotted c6L c6S c6u c6w 2 c6ka
    rfl rfl rfl (by decide) rfl rfl
    (by intro i hi; fin_cases hi <;> rfl)
    rfl rfl
    (by intro i hi; fin_cases hi <;> rfl)
    (by
      intro i k h
      by_cases h2 : i = 2
      · rw [c6ka, if_pos h2] at h
        cases h
        decide
      · rw [c6ka, if_neg h2] at h
        cases h)
    ⟨2, by decide, by decide⟩
    rfl

theorem drain_nil (last : Nat) : drain last [] = ⟨last, [], []⟩ := rfl

theorem drain_cons (last s : Nat) (rest : List Nat) :
    drain last (s :: rest)
      = if s ≤ last then drain last rest
        else if s = last + 1 then
          ⟨(drain (last + 1) rest).last, (drain (last + 1) rest).buffer,
            s :: (drain (last + 1) rest).delivered⟩
        else ⟨last, s :: rest, []⟩ := rfl

theorem drainSpec (buf : List Nat) :
    ∀ last : Nat, buf.Pairwise (· < ·) →
    last ≤ (drain last buf).last
    ∧ (drain last buf).delivered.Pairwise (· < ·)
    ∧ (∀ x ∈ (drain last buf).delivered, last < x ∧ x ≤ (drain last buf).last)
    ∧ (drain last buf).buffer.Pairwise (· < ·)
    ∧ (∀ x ∈ (drain last buf).buffer, (drain last buf).last < x)
    ∧ (∀ x ∈ buf, x ∈ (drain last buf).delivered ∨ x ∈ (drain last buf).buffer
        ∨ x ≤ (drain last buf).last) := by
  induction buf with
  | nil =>
    intro last _
    rw [drain_nil]
    exact ⟨le_refl _, .nil, by simp, .nil, by simp, by simp⟩
  | cons s rest ih =>
    intro last h
    obtain ⟨hs, hrest⟩ := List.pairwise_cons.mp h
    by_cases h1 : s ≤ last
    · rw [drain_cons, if_pos h1]
      obtain ⟨a, b, c, d2, e2, f⟩ := ih last hrest
      refine ⟨a, b, c, d2, e2, ?_⟩
      intro x hx
      rcases List.mem_cons.mp hx with rfl | hx2
      · exact Or.inr (Or.inr (le_trans h1 a))
      · exact f x hx2
    · by_cases h2 : s = last + 1
      · rw [drain_cons, if_neg h1, if_pos h2]
        obtain ⟨a, b, c, d2, e2, f⟩ := ih (last + 1) hrest
        subst h2
        refine ⟨le_trans (Nat.le_succ last) a, ?_, ?_, d2, e2, ?_⟩
        · exact List.pairwise_cons.mpr ⟨fun x hx => (c x hx).1, b⟩
        · intro x hx
          rcases List.mem_cons.mp hx with rfl | hx2
          · exact ⟨Nat.lt_succ_self last, a⟩
          · obtain ⟨c1, c2⟩ := c x hx2
            exact ⟨lt_trans (Nat.lt_succ_self last) c1, c2⟩
        · intro x hx
          rcases List.mem_cons.mp hx with rfl | hx2
          · exact Or.inl (List.mem_cons_self _ _)
          · rcases f x hx2 with hf | hf | hf
            · exact Or.inl (List.mem_cons_of_mem _ hf)
            · exact Or.inr (Or.inl hf)
            · exact Or.inr (Or.inr hf)
      · rw [drain_cons, if_neg h1, if_neg h2]
        have hlast : last < s := Nat.lt_of_not_le h1
        refine ⟨le_refl _, .nil, by simp, h, ?_, ?_⟩
        · intro x hx
          rcases List.mem_cons.mp hx with rfl | hx2
          · exact hlast
          · exact lt_trans hlast (hs x hx2)
        · intro x hx
          exact Or.inr (Or.inl hx)

theorem insertSorted_nil (s : Nat) : insertSorted s [] = [s] := rfl

theorem insertSorted_cons (s x : Nat) (rest : List Nat) :
    insertSorted s (x :: rest)
      = if s < x then s :: x :: rest
        else if s = x then x :: rest
        else x :: insertSorted s rest := rfl

theorem insertSorted_mem (s : Nat) (l : List Nat) (x : Nat) :
    x ∈ insertSorted s l ↔ x = s ∨ x ∈ l := by
  induction l with
  | nil => simp [insertSorted_nil]
  | cons y rest ih =>
    by_cases h1 : s < y
    · rw [insertSorted_cons, if_pos h1]
      simp only [List.mem_cons]
      try tauto
    · by_cases h2 : s = y
      · rw [insertSorted_cons, if_neg h1, if_pos h2]
        subst h2
        simp only [List.mem_cons]
        try tauto
      · rw [insertSorted_cons, if_neg h1, if_neg h2]
        simp only [List.mem_cons, ih]
        try tauto

theorem insertSorted_pairwise (s : Nat) (l : List Nat) (h : l.Pairwise (· < ·)) :
    (insertSorted s l).Pairwise (· < ·) := by
  induction l with
  | nil =>
    rw [insertSorted_nil]
    exact List.pairwise_singleton _ _
  | cons y rest ih =>
    obtain ⟨hy, hrest⟩ := List.pairwise_cons.mp h
    by_cases h1 : s < y
    · rw [insertSorted_cons, if_pos h1]
      refine List.pairwise_cons.mpr ⟨?_, h⟩
      intro x hx
      rcases List.mem_cons.mp hx with rfl | hx2
      · exact h1
      · exact lt_trans h1 (hy x hx2)
    · by_cases h2 : s = y
      · rw [insertSorted_cons, if_neg h1, if_pos h2]
        exact h
      · rw [insertSorted_cons, if_neg h1, if_neg h2]
        refine List.pairwise_cons.mpr ⟨?_, ih hrest⟩
        intro x hx
        rcases (insertSorted_mem s rest x).mp hx with rfl | hx2
        · omega
        · exact hy x hx2

theorem ingest_spec (st : SeqState) (s : Nat) (hwf : SeqWF st) :
    SeqWF (ingest st s).1
    ∧ st.lastApplied ≤ (ingest st s).1.lastApplied
    ∧ (ingest st s).2.Pairwise (· < ·)
    ∧ (∀ x ∈ (ingest st s).2, st.lastApplied < x ∧ x ≤ (ingest st s).1.lastApplied)
    ∧ (∀ x, (x ∈ st.buffer ∨ x = s) →
        x ∈ (ingest st s).2 ∨ x ∈ (ingest st s).1.buffer
          ∨ x ≤ (ingest st s).1.lastApplied) := by
  obtain ⟨hbuf, hgt⟩ := hwf
  by_cases h1 : s ≤ st.lastApplied
  · simp only [ingest, if_pos h1]
    refine ⟨⟨hbuf, hgt⟩, le_refl _, .nil, by simp, ?_⟩
    intro x hx
    rcases hx with hx | rfl
    · exact Or.inr (Or.inl hx)
    · exact Or.inr (Or.inr h1)
  · by_cases h2 : s = st.lastApplied + 1
    · simp only [ingest, if_neg h1, if_pos h2]
      obtain ⟨a, b, c, d2, e2, f⟩ := drainSpec st.buffer s hbuf
      refine ⟨⟨d2, e2⟩, ?_, ?_, ?_, ?_⟩
      · exact le_trans (by omega) a
      · exact List.pairwise_cons.mpr ⟨fun x hx => (c x hx).1, b⟩
      · intro x hx
        rcases List.mem_cons.mp hx with rfl | hx2
        · exact ⟨by omega, a⟩
        · obtain ⟨c1, c2⟩ := c x hx2
          exact ⟨by omega, c2⟩
      · intro x hx
        rcases hx with hx | rfl
        · rcases f x hx with hf | hf | hf
          · exact Or.inl (List.mem_cons_of_mem _ hf)
          · exact Or.inr (Or.inl hf)
          · exact Or.inr (Or.inr hf)
        · exact Or.inl (List.mem_cons_self _ _)
    · simp only [ingest, if_neg h1, if_neg h2]
      refine ⟨⟨insertSorted_pairwise s st.buffer hbuf, ?_⟩, le_refl _, .nil, by simp, ?_⟩
      · intro x hx
        rcases (insertSorted_mem s st.buffer x).mp hx with rfl | hx2
        · show st.lastApplied < x
          omega
        · exact hgt x hx2
      · intro x hx
        rcases hx with hx | rfl
        · exact Or.inr (Or.inl ((insertSorted_mem _ _ _).mpr (Or.inr hx)))
        · exact Or.inr (Or.inl ((insertSorted_mem _ _ _).mpr (Or.inl rfl)))

theorem applyCheckpoint_spec (st : SeqState) (n : Nat) (hwf : SeqWF st) :
    SeqWF (applyCheckpoint st n).1
    ∧ st.lastApplied ≤ (applyCheckpoint st n).1.lastApplied
    ∧ (applyCheckpoint st n).2.Pairwise (· < ·)
    ∧ (∀ x ∈ (applyCheckpoint st n).2,
        st.lastApplied < x ∧ x ≤ (applyCheckpoint st n).1.lastApplied)
    ∧ (∀ x ∈ st.buffer, x ∈ (applyCheckpoint st n).2
        ∨ x ∈ (applyCheckpoint st n).1.buffer
        ∨ x ≤ (applyCheckpoint st n).1.lastApplied) := by
  obtain ⟨hbuf, hgt⟩ := hwf
  obtain ⟨a, b, c, d2, e2, f⟩ := drainSpec st.buffer (max st.lastApplied n) hbuf
  simp only [applyCheckpoint]
  refine ⟨⟨d2, e2⟩, le_trans (le_max_left _ _) a, b, ?_, f⟩
  intro x hx
  obtain ⟨c1, c2⟩ := c x hx
  exact ⟨lt_of_le_of_lt (le_max_left _ _) c1, c2⟩

theorem seqStep_spec (st : SeqState) (e : SeqEvent) (hwf : SeqWF st) :
    SeqWF (seqStep st e).1
    ∧ st.lastApplied ≤ (seqStep st e).1.lastApplied
    ∧ (seqStep st e).2.Pairwise (· < ·)
    ∧ (∀ x ∈ (seqStep st e).2, st.lastApplied < x ∧ x ≤ (seqStep st e).1.lastApplied)
    ∧ (∀ x, (x ∈ st.buffer ∨ e = .push x) →
        x ∈ (seqStep st e).2 ∨ x ∈ (seqStep st e).1.buffer
          ∨ x ≤ (seqStep st e).1.lastApplied) := by
  cases e with
  | push s =>
    obtain ⟨w, m, p, b, acc⟩ := ingest_spec st s hwf
    refine ⟨w, m, p, b, ?_⟩
    intro x hx
    rcases hx with hx | hx
    · exact acc x (Or.inl hx)
    · cases hx
      exact acc s (Or.inr rfl)
  | catchUp n =>
    obtain ⟨w, m, p, b, acc⟩ := applyCheckpoint_spec st n hwf
    refine ⟨w, m, p, b, ?_⟩
    intro x hx
    rcases hx with hx | hx
    · exact acc x hx
    · cases hx

theorem seqRun_spec (events : List SeqEvent) :
    ∀ st : SeqState, SeqWF st →
    SeqWF (seqRun st events).1
    ∧ st.lastApplied ≤ (seqRun st events).1.lastApplied
    ∧ (seqRun st events).2.Pairwise (· < ·)
    ∧ (∀ x ∈ (seqRun st events).2,
        st.lastApplied < x ∧ x ≤ (seqRun st events).1.lastApplied)
    ∧ (∀ x, (x ∈ st.buffer ∨ SeqEvent.push x ∈ events) →
        x ∈ (seqRun st events).2 ∨ x ∈ (seqRun st events).1.buffer
          ∨ x ≤ (seqRun st events).1.lastApplied) := by
  induction events with
  | nil =>
    intro st hwf
    simp only [seqRun]
    refine ⟨hwf, le_refl _, .nil, by simp, ?_⟩
    intro x hx
    rcases hx with hx | hx
    · exact Or.inr (Or.inl hx)
    · exact absurd hx (List.not_mem_nil _)
  | cons e es ih =>
    intro st hwf
    obtain ⟨w1, m1, p1, b1, a1⟩ := seqStep_spec st e hwf
    obtain ⟨w2, m2, p2, b2, a2⟩ := ih (seqStep st e).1 w1
    simp only [seqRun]
    refine ⟨w2, le_trans m1 m2, ?_, ?_, ?_⟩
    · rw [List.pairwise_append]
      refine ⟨p1, p2, ?_⟩
      intro a ha b hb
      exact lt_of_le_of_lt (b1 a ha).2 (b2 b hb).1
    · intro x hx
      rcases List.mem_append.mp hx with hx | hx
      · exact ⟨(b1 x hx).1, le_trans (b1 x hx).2 m2⟩
      · exact ⟨lt_of_le_of_lt m1 (b2 x hx).1, (b2 x hx).2⟩
    · intro x hx
      have hbufcase : x ∈ st.buffer ∨ e = SeqEvent.push x →
          x ∈ (seqStep st e).2 ++ (seqRun (seqStep st e).1 es).2
            ∨ x ∈ (seqRun (seqStep st e).1 es).1.buffer
            ∨ x ≤ (seqRun (seqStep st e).1 es).1.lastApplied := by
        intro hc
        rcases a1 x hc with h | h | h
        · exact Or.inl (List.mem_append.mpr (Or.inl h))
        · rcases a2 x (Or.inl h) with h2 | h2 | h2
          · exact Or.inl (List.mem_append.mpr (Or.inr h2))
          · exact Or.inr (Or.inl h2)
          · exact Or.inr (Or.inr h2)
        · exact Or.inr (Or.inr (le_trans h m2))
      rcases hx with hx | hx
      · exact hbufcase (Or.inl hx)
      · rcases List.mem_cons.mp hx with hx2 | hx2
        · exact hbufcase (Or.inr hx2.symm)
        · rcases a2 x (Or.inr hx2) with h2 | h2 | h2
          · exact Or.inl (List.mem_append.mpr (Or.inr h2))
          · exact Or.inr (Or.inl h2)
          · exact Or.inr (Or.inr h2)

/-- Claim C1 (the Update Sequencer is modelled from the spec; its
implementation is not among the sources, only its call sites): from any
well-formed scope state, (1) the updates delivered to subscribers over
any event sequence are strictly increasing in sequence number — hence in
non-decreasing order, (2) with no duplicates: any delivered update is
delivered exactly once; (3) an update with `seq = lastAppliedSeq + 1` is
applied immediately — it heads the delivered list and `lastAppliedSeq`
advances; (4) an update with `seq ≤ lastAppliedSeq` is discarded
(state unchanged, nothing delivered); (5) an update with
`seq > lastAppliedSeq + 1` is buffered, not delivered; and (6) once every
gap has closed (empty buffer), every ingested update was either delivered
(exactly once, by (2)) or is superseded, covered by the final
checkpoint. -/
theorem claim_C1_update_sequencer_ordering (st : SeqState) (hwf : SeqWF st) :
    (∀ events : List SeqEvent, (seqRun st events).2.Pairwise (· < ·))
    ∧ (∀ events : List SeqEvent, ∀ s ∈ (seqRun st events).2,
        (seqRun st events).2.count s = 1)
    ∧ ((ingest st (st.lastApplied + 1)).2.head? = some (st.lastApplied + 1)
        ∧ st.lastApplied < (ingest st (st.lastApplied + 1)).1.lastApplied)
    ∧ (∀ s, s ≤ st.lastApplied → ingest st s = (st, []))
    ∧ (∀ s, st.lastApplied + 1 < s →
        (ingest st s).2 = [] ∧ s ∈ (ingest st s).1.buffer
          ∧ (ingest st s).1.lastApplied = st.lastApplied)
    ∧ (∀ events : List SeqEvent, (seqRun st events).1.buffer = [] →
        ∀ s, SeqEvent.push s ∈ events →
          s ∈ (seqRun st events).2
            ∨ (s ∉ (seqRun st events).2
                ∧ s ≤ (seqRun st events).1.lastApplied)) := by
  refine ⟨?_, ?_, ?_, ?_, ?_, ?_⟩
  · intro events
    exact (seqRun_spec events st hwf).2.2.1
  · intro events s hs
    have hp := (seqRun_spec events st hwf).2.2.1
    have hnd : (seqRun st events).2.Nodup := hp.imp (fun h => Nat.ne_of_lt h)
    exact List.count_eq_one_of_mem hnd hs
  · have hne : ¬ st.lastApplied + 1 ≤ st.lastApplied := by omega
    obtain ⟨a, _, _, _, _, _⟩ := drainSpec st.buffer (st.lastApplied + 1) hwf.1
    constructor
    · simp only [ingest, if_neg hne, if_pos rfl]
      rfl
    · simp only [ingest, if_neg hne, if_pos rfl]
      exact lt_of_lt_of_le (Nat.lt_succ_self _) a
  · intro s hs
    simp only [ingest, if_pos hs]
  · intro s hs
    have h1 : ¬ s ≤ st.lastApplied := by omega
    have h2 : s ≠ st.lastApplied + 1 := by omega
    simp only [ingest, if_neg h1, if_neg h2]
    exact ⟨trivial, (insertSorted_mem _ _ _).mpr (Or.inl rfl), trivial⟩
  · intro events hempty s hs
    rcases (seqRun_spec events st hwf).2.2.2.2 s (Or.inr hs) with h | h | h
    · exact Or.inl h
    · rw [hempty] at h
      exact absurd h (List.not_mem_nil _)
    · by_cases hmem : s ∈ (seqRun st events).2
      · exact Or.inl hmem
      · exact Or.inr ⟨hmem, h⟩

/-- Witness for C1: from a fresh scope, the arrival order 1, 2, 4, 5, 3
delivers exactly 1, 2, 3, 4, 5 — the gap at 3 buffers 4 and 5 and the
late 3 flushes them. -/
theorem claim_C1_witness :
    SeqWF ⟨0, []⟩
    ∧ (seqRun ⟨0, []⟩
        [.push 1, .push 2, .push 4, .push 5, .push 3]).2.Pairwise (· < ·)
    ∧ (seqRun ⟨0, []⟩ [.push 1, .push 2, .push 4, .push 5, .push 3]).2
        = [1, 2, 3, 4, 5] := by
  have hwf0 : SeqWF ⟨0, []⟩ := ⟨List.Pairwise.nil, fun x hx => absurd hx (List.not_mem_nil x)⟩
  exact ⟨hwf0,
    (claim_C1_update_sequencer_ordering ⟨0, []⟩ hwf0).1
      [.push 1, .push 2, .push 4, .push 5, .push 3],
    rfl⟩
